import Mathlib

/-!
# Verification of the Codacy-to-Semgrep pattern extractor

A shallow embedding in Lean 4 of the pure data-transformation core of
`extractor.py`: the rule-id simplification, the enabled-pattern filter, the
language extractor, the semgrep-config builder, the cursor-based pagination
walker, and the top-level error-handling skeleton of `main`.

Python dictionaries with optional keys are modelled by structures with
`Option`-typed fields (`none` = key absent); a JSON value that may itself be
`null` is modelled by a nested `Option`.  Python string truthiness (`if s:`)
becomes an emptiness test; Python's `str.lower`/`str.upper` are modelled
character-wise by `Char.toLower`/`Char.toUpper` (ASCII case-mapping, which is
all the data in question uses).
-/

/-- The `patternDefinition` sub-record of a Codacy pattern.
`pattern` is `Option (Option String)`: the outer `Option` records whether the
key `"pattern"` is present at all, the inner one whether its value is `null`. -/
structure PatternDef where
  id : String
  description : Option String
  languages : List String
  pattern : Option (Option String)
deriving DecidableEq

/-- A Codacy pattern record, as consumed by the extractor.  `enabled` and
`severity` are optional keys (`none` = absent). -/
structure Pattern where
  enabled : Option Bool
  severity : Option String
  patternDefinition : PatternDef
deriving DecidableEq

/-- Embedding of Python `s.lower()` (character-wise ASCII case mapping). -/
def pyLower (s : String) : String :=
  ⟨s.data.map Char.toLower⟩

/-- Embedding of Python `s.upper()` (character-wise ASCII case mapping). -/
def pyUpper (s : String) : String :=
  ⟨s.data.map Char.toUpper⟩

/-- Character-list splitter underlying `pySplit`: split at every occurrence
of the separator character, keeping empty segments (Python `str.split(sep)`
semantics). -/
def splitChars (c : Char) : List Char → List (List Char)
  | [] => [[]]
  | x :: xs =>
    match splitChars c xs with
    | [] => [[]]
    | seg :: segs => if x = c then [] :: seg :: segs else (x :: seg) :: segs

/-- Embedding of Python `s.split(sep)` for a one-character separator. -/
def pySplit (s : String) (sep : Char) : List String :=
  (splitChars sep s.data).map (fun cs => ⟨cs⟩)

/-- Embedding of Python `sep.join(parts)`. -/
def pyJoin (sep : String) : List String → String
  | [] => ""
  | [s] => s
  | s :: rest => s ++ sep ++ pyJoin sep rest

/-- Embedding of Python `c in s` for a one-character needle. -/
def pyContains (s : String) (c : Char) : Bool :=
  s.data.contains c

/-- The accumulating first-occurrence loop of `format_rule_id`:
`unique_parts = []; for part in parts: if part not in unique_parts:
unique_parts.append(part)`. -/
def uniqueParts (parts : List String) : List String :=
  parts.foldl (fun acc part => if part ∈ acc then acc else acc ++ [part]) []

/-- `format_rule_id` from `extractor.py`: take the segment after the last
`'.'` (when a dot is present), deduplicate `'-'`-separated parts keeping first
occurrences (when a hyphen is present), and fall back to `"unknown-rule"` for
an empty result. -/
def format_rule_id (pattern_def : PatternDef) : String :=
  let pattern_id := pattern_def.id
  let pattern_id :=
    if pyContains pattern_id '.' then (pySplit pattern_id '.').getLastD ""
    else pattern_id
  let pattern_id :=
    if pyContains pattern_id '-' then
      pyJoin "-" (uniqueParts (pySplit pattern_id '-'))
    else pattern_id
  if pattern_id ≠ "" then pattern_id else "unknown-rule"

/-- Left-to-right first-occurrence deduplication, stated structurally (keep
the head, delete its later duplicates, recurse): the spec's description of the
rule-id part deduplication. -/
def dedupKeepFirst : List String → List String
  | [] => []
  | x :: xs => x :: dedupKeepFirst (xs.filter (fun y => y ≠ x))
termination_by l => l.length
decreasing_by
  simp only [List.length_cons]
  exact Nat.lt_succ_of_le (List.length_filter_le _ _)

/-- Rule-id simplification as the spec words it: keep the substring after the
last `'.'`, deduplicate hyphen-separated parts by first occurrence, map an
empty result to `"unknown-rule"`. -/
def rule_id_spec (s : String) : String :=
  let afterDot := if pyContains s '.' then (pySplit s '.').getLastD "" else s
  let deduped :=
    if pyContains afterDot '-' then
      pyJoin "-" (dedupKeepFirst (pySplit afterDot '-'))
    else afterDot
  if deduped = "" then "unknown-rule" else deduped

theorem uniqueParts_go (parts : List String) :
    ∀ acc : List String,
      parts.foldl (fun acc part => if part ∈ acc then acc else acc ++ [part]) acc
        = acc ++ dedupKeepFirst (parts.filter (fun y => y ∉ acc)) := by
  induction parts with
  | nil =>
    intro acc
    simp [dedupKeepFirst]
  | cons x xs ih =>
    intro acc
    rw [List.foldl_cons]
    by_cases hx : x ∈ acc
    · rw [if_pos hx, ih acc]
      have hfilter :
          (x :: xs).filter (fun y => y ∉ acc) = xs.filter (fun y => y ∉ acc) := by
        simp [List.filter_cons, hx]
      rw [hfilter]
    · rw [if_neg hx, ih (acc ++ [x])]
      have hfe :
          xs.filter (fun y => y ∉ acc ++ [x])
            = (xs.filter (fun y => y ∉ acc)).filter (fun y => y ≠ x) := by
        rw [List.filter_filter]
        apply List.filter_congr
        intro y _
        by_cases h1 : y = x
        · subst h1; simp
        · by_cases h2 : y ∈ acc <;> simp [h1, h2]
      have hfilter :
          (x :: xs).filter (fun y => y ∉ acc)
            = x :: xs.filter (fun y => y ∉ acc) := by
        simp [List.filter_cons, hx]
      rw [hfe, hfilter, List.append_assoc]
      congr 1
      rw [List.singleton_append, dedupKeepFirst]

theorem uniqueParts_eq_dedupKeepFirst (parts : List String) :
    uniqueParts parts = dedupKeepFirst parts := by
  have h := uniqueParts_go parts []
  have hfil : parts.filter (fun y => y ∉ ([] : List String)) = parts := by
    simp
  rw [hfil, List.nil_append] at h
  exact h

theorem ite_empty_flip (s : String) :
    (if s ≠ "" then s else "unknown-rule") = (if s = "" then "unknown-rule" else s) := by
  by_cases h : s = "" <;> simp [h]

theorem format_rule_id_eq_spec (pd : PatternDef) :
    format_rule_id pd = rule_id_spec pd.id := by
  simp only [format_rule_id, rule_id_spec, uniqueParts_eq_dedupKeepFirst]
  rw [ite_empty_flip]

/-- A `patternDefinition` holding only an id, for concrete test inputs. -/
def pdOfId (s : String) : PatternDef :=
  { id := s, description := none, languages := [], pattern := none }

/-- C2: `format_rule_id` keeps the substring after the last `'.'` (when one is
present), deduplicates `'-'`-separated parts by first occurrence, and returns
`"unknown-rule"` for an empty result; in particular
`"python.security.audit.audit" ↦ "audit"`,
`"eslint.no-unused-vars-no-unused-vars" ↦ "no-unused-vars"`, and
`"" ↦ "unknown-rule"`. -/
theorem claim_C2_format_rule_id :
    (∀ pd : PatternDef, format_rule_id pd = rule_id_spec pd.id)
    ∧ format_rule_id (pdOfId "python.security.audit.audit") = "audit"
    ∧ format_rule_id (pdOfId "eslint.no-unused-vars-no-unused-vars") = "no-unused-vars"
    ∧ format_rule_id (pdOfId "") = "unknown-rule" :=
  ⟨format_rule_id_eq_spec, by decide, by decide, by decide⟩

/-- `filter_enabled_patterns` from `extractor.py`:
`[pattern for pattern in patterns if pattern.get("enabled", False)]`. -/
def filter_enabled_patterns (patterns : List Pattern) : List Pattern :=
  patterns.filter (fun pattern => pattern.enabled.getD false)

/-- C6: `filter_enabled_patterns` returns a subsequence of its input made of
exactly the patterns whose `enabled` attribute is truthy, each passed through
unchanged, and it is idempotent. -/
theorem claim_C6_filter_enabled_patterns (patterns : List Pattern) :
    (filter_enabled_patterns patterns).Sublist patterns
    ∧ (∀ p, p ∈ filter_enabled_patterns patterns
        ↔ p ∈ patterns ∧ p.enabled.getD false = true)
    ∧ filter_enabled_patterns (filter_enabled_patterns patterns)
        = filter_enabled_patterns patterns := by
  refine ⟨List.filter_sublist _, fun p => ?_, ?_⟩
  · simp [filter_enabled_patterns]
  · simp [filter_enabled_patterns, List.filter_filter]

/-- C8: a pattern record lacking the `enabled` key entirely is dropped by
`filter_enabled_patterns` (absence is treated as disabled, not as an error). -/
theorem claim_C8_absent_enabled_dropped (p : Pattern) (h : p.enabled = none) :
    (∀ l : List Pattern, p ∉ filter_enabled_patterns l)
    ∧ ∀ l₁ l₂ : List Pattern,
        filter_enabled_patterns (l₁ ++ p :: l₂) = filter_enabled_patterns (l₁ ++ l₂) := by
  have hp : (p.enabled.getD false : Bool) = false := by rw [h]; rfl
  constructor
  · intro l hl
    have := List.of_mem_filter hl
    rw [hp] at this
    exact Bool.false_ne_true this
  · intro l₁ l₂
    simp [filter_enabled_patterns, List.filter_append, List.filter_cons, hp]

/-- A minimal pattern with `enabled` absent, for concrete instantiations. -/
def patternNoEnabled : Pattern :=
  { enabled := none, severity := none, patternDefinition := pdOfId "x" }

/-- A minimal enabled pattern, for concrete instantiations. -/
def patternEnabledY : Pattern :=
  { enabled := some true, severity := none, patternDefinition := pdOfId "y" }

/-- Witness for C8 at a concrete pattern and concrete lists. -/
theorem claim_C8_absent_enabled_dropped_witness :
    patternNoEnabled ∉ filter_enabled_patterns [patternEnabledY, patternNoEnabled]
    ∧ filter_enabled_patterns ([patternEnabledY] ++ patternNoEnabled :: [])
        = filter_enabled_patterns ([patternEnabledY] ++ []) :=
  ⟨(claim_C8_absent_enabled_dropped patternNoEnabled rfl).1 [patternEnabledY, patternNoEnabled],
   (claim_C8_absent_enabled_dropped patternNoEnabled rfl).2 [patternEnabledY] []⟩

theorem char_toLower_idem (c : Char) : c.toLower.toLower = c.toLower := by
  unfold Char.toLower
  by_cases h : c.toNat ≥ 65 ∧ c.toNat ≤ 90
  · rw [if_pos h]
    have hv : Nat.isValidChar (c.toNat + 32) := Or.inl (by omega)
    have ht : (Char.ofNat (c.toNat + 32)).toNat = c.toNat + 32 := by
      unfold Char.ofNat
      rw [dif_pos hv]
      rfl
    rw [if_neg]
    rw [ht]
    omega
  · rw [if_neg h, if_neg h]

theorem pyLower_idem (s : String) : pyLower (pyLower s) = pyLower s := by
  have hlist : ∀ l : List Char, (l.map Char.toLower).map Char.toLower = l.map Char.toLower := by
    intro l
    induction l with
    | nil => rfl
    | cons c cs ih => simp [char_toLower_idem, ih]
  unfold pyLower
  exact congrArg String.mk (hlist s.data)

/-- The lower-cased language set of a `patternDefinition`:
`set(lang.lower() for lang in pattern_def.get("languages", []))`. -/
def lowerLangs (pd : PatternDef) : Finset String :=
  (pd.languages.map pyLower).toFinset

/-- `get_available_languages` from `extractor.py`: accumulate every pattern's
lower-cased languages into a set and return it as a sorted list
(`sorted(list(languages))`). -/
def get_available_languages (patterns : List Pattern) : List String :=
  let languages : Finset String :=
    patterns.foldl (fun acc pattern => acc ∪ lowerLangs pattern.patternDefinition) ∅
  languages.sort (· ≤ ·)

theorem mem_langFold (patterns : List Pattern) :
    ∀ (init : Finset String) (s : String),
      (s ∈ patterns.foldl (fun acc pattern => acc ∪ lowerLangs pattern.patternDefinition) init
        ↔ s ∈ init ∨ ∃ p ∈ patterns, s ∈ lowerLangs p.patternDefinition) := by
  induction patterns with
  | nil => intro init s; simp
  | cons q qs ih =>
    intro init s
    rw [List.foldl_cons, ih]
    simp only [Finset.mem_union, List.mem_cons]
    constructor
    · rintro (⟨h | h⟩ | ⟨p, hp, hs⟩)
      · exact Or.inl h
      · exact Or.inr ⟨q, Or.inl rfl, h⟩
      · exact Or.inr ⟨p, Or.inr hp, hs⟩
    · rintro (h | ⟨p, hp | hp, hs⟩)
      · exact Or.inl (Or.inl h)
      · exact Or.inl (Or.inr (hp ▸ hs))
      · exact Or.inr ⟨p, hp, hs⟩

theorem mem_get_available_languages (patterns : List Pattern) (s : String) :
    s ∈ get_available_languages patterns
      ↔ ∃ p ∈ patterns, ∃ l ∈ p.patternDefinition.languages, pyLower l = s := by
  unfold get_available_languages
  rw [Finset.mem_sort, mem_langFold]
  simp only [Finset.not_mem_empty, false_or]
  constructor
  · rintro ⟨p, hp, hs⟩
    rw [lowerLangs, List.mem_toFinset, List.mem_map] at hs
    obtain ⟨l, hl, rfl⟩ := hs
    exact ⟨p, hp, l, hl, rfl⟩
  · rintro ⟨p, hp, l, hl, rfl⟩
    exact ⟨p, hp, by rw [lowerLangs, List.mem_toFinset, List.mem_map]; exact ⟨l, hl, rfl⟩⟩

/-- C7: `get_available_languages` returns exactly the lower-cased languages
declared across the patterns, sorted ascending, without duplicates even up to
case-insensitive comparison. -/
theorem claim_C7_get_available_languages (patterns : List Pattern) :
    (∀ s, s ∈ get_available_languages patterns
        ↔ ∃ p ∈ patterns, ∃ l ∈ p.patternDefinition.languages, pyLower l = s)
    ∧ (get_available_languages patterns).Sorted (· ≤ ·)
    ∧ (get_available_languages patterns).Nodup
    ∧ List.Pairwise (fun a b => pyLower a ≠ pyLower b) (get_available_languages patterns) := by
  refine ⟨mem_get_available_languages patterns, Finset.sort_sorted _ _, Finset.sort_nodup _ _, ?_⟩
  have hfix : ∀ s ∈ get_available_languages patterns, pyLower s = s := by
    intro s hs
    rw [mem_get_available_languages] at hs
    obtain ⟨p, _, l, _, rfl⟩ := hs
    exact pyLower_idem l
  have hnd : (get_available_languages patterns).Nodup := Finset.sort_nodup _ _
  refine List.Pairwise.imp_of_mem ?_ hnd
  intro a b ha hb hne
  rw [hfix a ha, hfix b hb]
  exact hne

/-- A produced semgrep rule.  `languages` is kept as the intersection set
itself (the Python code materializes it by `list(...)` in unspecified set
order); `message` and `severity` model optional keys; `pattern` is an
always-present key whose value may be `null` (`none`). -/
structure Rule where
  id : String
  languages : Finset String
  message : Option String
  severity : Option String
  pattern : Option String
deriving DecidableEq

/-- The produced semgrep configuration: `{"rules": rules}`. -/
structure Config where
  rules : List Rule
deriving DecidableEq

/-- `set(lang.lower() for lang in pattern_def.get("languages", []))
.intersection(selected_languages)` from `create_semgrep_config`. -/
def langsInter (selected_languages : List String) (p : Pattern) : Finset String :=
  lowerLangs p.patternDefinition ∩ selected_languages.toFinset

/-- Whether the loop body of `create_semgrep_config` produces a rule for a
pattern: `pattern_languages.intersection(selected_languages)` is non-empty. -/
def qualifies (selected_languages : List String) (p : Pattern) : Bool :=
  decide (langsInter selected_languages p ≠ ∅)

/-- The rule the loop body of `create_semgrep_config` builds for one
(qualifying) pattern. -/
def mkRule (selected_languages : List String) (p : Pattern) : Rule :=
  let pattern_def := p.patternDefinition
  { id := format_rule_id pattern_def
    languages := langsInter selected_languages p
    message :=
      match pattern_def.description with
      | some d => if d = "" then none else some d
      | none => none
    severity :=
      let severity := p.severity.getD "WARNING"
      if severity = "" then none else some (pyUpper severity)
    pattern :=
      match pattern_def.pattern with
      | some v => v
      | none => some "\x7b\x7d" }

/-- `create_semgrep_config` from `extractor.py`: for each pattern in input
order, skip it when its lower-cased language set does not meet
`selected_languages`, and otherwise emit the rule built by the loop body. -/
def create_semgrep_config (patterns : List Pattern) (selected_languages : List String) :
    Config :=
  { rules := patterns.filterMap (fun pattern =>
      if langsInter selected_languages pattern = ∅ then none
      else some (mkRule selected_languages pattern)) }

theorem create_rules_eq (patterns : List Pattern) (selected_languages : List String) :
    (create_semgrep_config patterns selected_languages).rules
      = (patterns.filter (fun p => qualifies selected_languages p)).map
          (mkRule selected_languages) := by
  unfold create_semgrep_config
  induction patterns with
  | nil => rfl
  | cons q qs ih =>
    simp only [List.filterMap_cons, List.filter_cons]
    by_cases h : langsInter selected_languages q = ∅
    · have hq : qualifies selected_languages q = false := by
        simp [qualifies, h]
      rw [if_pos h, hq]
      simpa using ih
    · have hq : qualifies selected_languages q = true := by
        simp [qualifies, h]
      rw [if_neg h, hq]
      simpa using ih

/-- C1: a rule is produced for a pattern exactly when its lower-cased
language set meets the selected set; the produced rule's `languages` equals
that intersection, hence is non-empty and contained in both the pattern's
languages and the selection; rules appear in input order, one per qualifying
pattern. -/
theorem claim_C1_create_semgrep_config (patterns : List Pattern)
    (selected_languages : List String) :
    ((create_semgrep_config patterns selected_languages).rules
      = (patterns.filter (fun p => qualifies selected_languages p)).map
          (mkRule selected_languages))
    ∧ (∀ p : Pattern, qualifies selected_languages p = true
        ↔ (lowerLangs p.patternDefinition ∩ selected_languages.toFinset).Nonempty)
    ∧ (∀ p : Pattern, qualifies selected_languages p = true →
        (mkRule selected_languages p).languages
            = lowerLangs p.patternDefinition ∩ selected_languages.toFinset
        ∧ (mkRule selected_languages p).languages.Nonempty
        ∧ (mkRule selected_languages p).languages ⊆ lowerLangs p.patternDefinition
        ∧ (mkRule selected_languages p).languages ⊆ selected_languages.toFinset) := by
  refine ⟨create_rules_eq patterns selected_languages, fun p => ?_, fun p hp => ?_⟩
  · rw [qualifies, decide_eq_true_iff, ← Finset.nonempty_iff_ne_empty]
    exact Iff.rfl
  · have hl : (mkRule selected_languages p).languages
        = lowerLangs p.patternDefinition ∩ selected_languages.toFinset := rfl
    rw [qualifies, decide_eq_true_iff, ← Finset.nonempty_iff_ne_empty] at hp
    exact ⟨hl, hl ▸ hp, hl ▸ Finset.inter_subset_left, hl ▸ Finset.inter_subset_right⟩

/-- A fully-populated enabled python/go pattern, used as a concrete input. -/
def pPy : Pattern :=
  { enabled := some true
    severity := some "Error"
    patternDefinition :=
      { id := "python.lang.test-rule"
        description := some "A test rule"
        languages := ["Python", "Go"]
        pattern := some (some "$X == $X") } }

/-- Witness for C1 at a concrete pattern list and selection. -/
theorem claim_C1_create_semgrep_config_witness :
    ((create_semgrep_config [pPy] ["python"]).rules
      = (([pPy].filter (fun p => qualifies ["python"] p)).map (mkRule ["python"])))
    ∧ (qualifies ["python"] pPy = true
        ↔ (lowerLangs pPy.patternDefinition ∩ ["python"].toFinset).Nonempty)
    ∧ ((mkRule ["python"] pPy).languages
            = lowerLangs pPy.patternDefinition ∩ ["python"].toFinset
        ∧ (mkRule ["python"] pPy).languages.Nonempty
        ∧ (mkRule ["python"] pPy).languages ⊆ lowerLangs pPy.patternDefinition
        ∧ (mkRule ["python"] pPy).languages ⊆ ["python"].toFinset) :=
  ⟨(claim_C1_create_semgrep_config [pPy] ["python"]).1,
   (claim_C1_create_semgrep_config [pPy] ["python"]).2.1 pPy,
   (claim_C1_create_semgrep_config [pPy] ["python"]).2.2 pPy (by decide)⟩

/-- An enabled pattern whose `severity` key is present but holds the empty
string (falsy in Python). -/
def pEmptySeverity : Pattern :=
  { enabled := some true
    severity := some ""
    patternDefinition :=
      { id := "a", description := none, languages := ["python"], pattern := none } }

/-- An enabled pattern with no `severity` key at all. -/
def pNoSeverity : Pattern :=
  { enabled := some true
    severity := none
    patternDefinition :=
      { id := "b", description := none, languages := ["python"], pattern := none } }

/-- C4 counterexample: for a qualifying pattern whose `severity` key is
present but empty, the produced rule carries no `severity` field at all, so it
does not equal the upper-cased severity value. -/
theorem claim_C4_counterexample :
    (create_semgrep_config [pEmptySeverity] ["python"]).rules.map Rule.severity = [none]
    ∧ (none : Option String) ≠ some (pyUpper (pEmptySeverity.severity.getD "WARNING")) := by
  constructor
  · decide
  · decide

/-- C4 amended: every produced rule is the loop body's `mkRule` of its
pattern, whose `severity` field is the upper-cased pattern severity (default
`"WARNING"` when the key is absent) whenever that value is non-empty, and is
omitted when the `severity` key is present but empty. -/
theorem claim_C4_severity (patterns : List Pattern) (selected_languages : List String) :
    ((create_semgrep_config patterns selected_languages).rules
      = (patterns.filter (fun p => qualifies selected_languages p)).map
          (mkRule selected_languages))
    ∧ ∀ p : Pattern,
        (p.severity = none → (mkRule selected_languages p).severity = some "WARNING")
        ∧ (∀ s, p.severity = some s → s ≠ "" →
            (mkRule selected_languages p).severity = some (pyUpper s))
        ∧ (p.severity = some "" → (mkRule selected_languages p).severity = none) := by
  refine ⟨create_rules_eq patterns selected_languages, fun p => ⟨?_, ?_, ?_⟩⟩
  · intro h
    show (let severity := p.severity.getD "WARNING"
          if severity = "" then none else some (pyUpper severity)) = some "WARNING"
    rw [h]
    decide
  · intro s hs hne
    show (let severity := p.severity.getD "WARNING"
          if severity = "" then none else some (pyUpper severity)) = some (pyUpper s)
    rw [hs]
    simp [Option.getD, hne]
  · intro h
    show (let severity := p.severity.getD "WARNING"
          if severity = "" then none else some (pyUpper severity)) = none
    rw [h]
    decide

/-- Witness for C4 amended, at concrete patterns covering all three severity
shapes. -/
theorem claim_C4_severity_witness :
    ((create_semgrep_config [pPy] ["python"]).rules
      = (([pPy].filter (fun p => qualifies ["python"] p)).map (mkRule ["python"])))
    ∧ (mkRule ["python"] pNoSeverity).severity = some "WARNING"
    ∧ (mkRule ["python"] pPy).severity = some (pyUpper "Error")
    ∧ (mkRule ["python"] pEmptySeverity).severity = none :=
  ⟨(claim_C4_severity [pPy] ["python"]).1,
   ((claim_C4_severity [pPy] ["python"]).2 pNoSeverity).1 rfl,
   ((claim_C4_severity [pPy] ["python"]).2 pPy).2.1 "Error" rfl (by decide),
   ((claim_C4_severity [pPy] ["python"]).2 pEmptySeverity).2.2 rfl⟩

/-- An enabled pattern whose `patternDefinition` carries the key `pattern`
with value `null`. -/
def pNullPattern : Pattern :=
  { enabled := some true
    severity := some "Info"
    patternDefinition :=
      { id := "c", description := none, languages := ["python"], pattern := some none } }

/-- C9: the placeholder string is used as the rule's `pattern` exactly when
the key `pattern` is absent from `patternDefinition`; a present value is
copied verbatim (even `null` or the empty string), so a present-but-null
pattern is never replaced by the placeholder. -/
theorem claim_C9_pattern_placeholder (patterns : List Pattern)
    (selected_languages : List String) :
    ((create_semgrep_config patterns selected_languages).rules
      = (patterns.filter (fun p => qualifies selected_languages p)).map
          (mkRule selected_languages))
    ∧ ∀ p : Pattern,
        (p.patternDefinition.pattern = none →
          (mkRule selected_languages p).pattern = some "\x7b\x7d")
        ∧ (∀ v, p.patternDefinition.pattern = some v →
            (mkRule selected_languages p).pattern = v)
        ∧ (p.patternDefinition.pattern = some none →
            (mkRule selected_languages p).pattern = none
            ∧ (mkRule selected_languages p).pattern ≠ some "\x7b\x7d") := by
  refine ⟨create_rules_eq patterns selected_languages, fun p => ⟨?_, ?_, ?_⟩⟩
  · intro h
    show (match p.patternDefinition.pattern with
          | some v => v
          | none => some "\x7b\x7d") = some "\x7b\x7d"
    rw [h]
  · intro v hv
    show (match p.patternDefinition.pattern with
          | some v => v
          | none => some "\x7b\x7d") = v
    rw [hv]
  · intro h
    have hv : (mkRule selected_languages p).pattern = none := by
      show (match p.patternDefinition.pattern with
            | some v => v
            | none => some "\x7b\x7d") = none
      rw [h]
    exact ⟨hv, by rw [hv]; exact fun hc => Option.noConfusion hc⟩

/-- Witness for C9 at concrete patterns covering the three `pattern`-key
shapes (present string, absent, present null). -/
theorem claim_C9_pattern_placeholder_witness :
    ((create_semgrep_config [pPy] ["python"]).rules
      = (([pPy].filter (fun p => qualifies ["python"] p)).map (mkRule ["python"])))
    ∧ (mkRule ["python"] pNoSeverity).pattern = some "\x7b\x7d"
    ∧ (mkRule ["python"] pPy).pattern = some "$X == $X"
    ∧ ((mkRule ["python"] pNullPattern).pattern = none
        ∧ (mkRule ["python"] pNullPattern).pattern ≠ some "\x7b\x7d") :=
  ⟨(claim_C9_pattern_placeholder [pPy] ["python"]).1,
   ((claim_C9_pattern_placeholder [pPy] ["python"]).2 pNoSeverity).1 rfl,
   ((claim_C9_pattern_placeholder [pPy] ["python"]).2 pPy).2.1 (some "$X == $X") rfl,
   ((claim_C9_pattern_placeholder [pPy] ["python"]).2 pNullPattern).2.2 rfl⟩

/-- One service page of the paginated patterns endpoint:
`{"data": [...], "pagination": {"cursor": ...}}`.  `cursor` is `none` when
the key is missing (or its value is `null`). -/
structure Page where
  data : List Pattern
  cursor : Option String
deriving DecidableEq

/-- Python truthiness of the held cursor (`if cursor:` / `if not cursor:`):
falsy when missing, null, or the empty string. -/
def truthyCursor : Option String → Bool
  | none => false
  | some s => decide (s ≠ "")

/-- The `cursor` query parameter appended to the request URL: the held cursor
when truthy, nothing otherwise. -/
def cursorParam (c : Option String) : Option String :=
  if truthyCursor c then c else none

/-- Result of the pagination loop: accumulated pattern records, the cursor
query parameter of each issued request in order, and whether the loop reached
its `break` (a falsy cursor).  `stopped = false` means the supplied page
stream ran out while the loop was still requesting — the real loop would not
have terminated within this stream. -/
structure FetchResult where
  patterns : List Pattern
  requests : List (Option String)
  stopped : Bool
deriving DecidableEq

/-- `get_code_patterns_for_tool` from `extractor.py`, run against an explicit
stream of service pages: each iteration issues one request (recording its
cursor query parameter), appends the page's `data`, reads
`pagination.cursor`, and breaks when that cursor is falsy. -/
def get_code_patterns_for_tool : List Page → Option String → FetchResult
  | [], _ => { patterns := [], requests := [], stopped := false }
  | page :: rest, cursor =>
    if truthyCursor page.cursor then
      let r := get_code_patterns_for_tool rest page.cursor
      { patterns := page.data ++ r.patterns
        requests := cursorParam cursor :: r.requests
        stopped := r.stopped }
    else
      { patterns := page.data, requests := [cursorParam cursor], stopped := true }

theorem cursorParam_of_truthy (c : Option String) (h : truthyCursor c = true) :
    cursorParam c = c := by
  simp [cursorParam, h]

theorem fetch_go (last : Page) (hlast : truthyCursor last.cursor = false) :
    ∀ (init : List Page) (c : Option String), (∀ p ∈ init, truthyCursor p.cursor = true) →
      get_code_patterns_for_tool (init ++ [last]) c
        = { patterns := ((init ++ [last]).map Page.data).flatten
            requests := cursorParam c :: init.map Page.cursor
            stopped := true } := by
  intro init
  induction init with
  | nil =>
    intro c _
    simp [get_code_patterns_for_tool, hlast]
  | cons q qs ih =>
    intro c hall
    have hq : truthyCursor q.cursor = true := hall q (List.mem_cons_self q qs)
    have hqs : ∀ p ∈ qs, truthyCursor p.cursor = true :=
      fun p hp => hall p (List.mem_cons_of_mem q hp)
    show get_code_patterns_for_tool (q :: (qs ++ [last])) c = _
    rw [get_code_patterns_for_tool]
    rw [if_pos hq, ih q.cursor hqs]
    simp [cursorParam_of_truthy q.cursor hq]

/-- C3: when the service returns a stream of pages whose last page alone
carries a falsy cursor, the walker accumulates every page's `data` in order,
issues exactly one request per page, and each follow-up request carries the
previous page's cursor as its query parameter. -/
theorem claim_C3_pagination (pages : List Page) (last : Page)
    (hall : ∀ p ∈ pages, truthyCursor p.cursor = true)
    (hlast : truthyCursor last.cursor = false) :
    get_code_patterns_for_tool (pages ++ [last]) none
      = { patterns := ((pages ++ [last]).map Page.data).flatten
          requests := none :: pages.map Page.cursor
          stopped := true }
    ∧ (get_code_patterns_for_tool (pages ++ [last]) none).requests.length
        = (pages ++ [last]).length := by
  have h := fetch_go last hlast pages none hall
  have hcp : cursorParam none = none := rfl
  rw [hcp] at h
  refine ⟨h, ?_⟩
  rw [h]
  simp

/-- First concrete page (`P1`, cursor `"c1"`). -/
def page1 : Page := { data := [pPy], cursor := some "c1" }

/-- Second concrete page (`P2`, cursor `"c2"`). -/
def page2 : Page := { data := [pNoSeverity], cursor := some "c2" }

/-- Third concrete page (`P3`, no cursor). -/
def page3 : Page := { data := [pNullPattern], cursor := none }

/-- Witness for C3 at the three-page scenario of the claim. -/
theorem claim_C3_pagination_witness :
    get_code_patterns_for_tool ([page1, page2] ++ [page3]) none
      = { patterns := (([page1, page2] ++ [page3]).map Page.data).flatten
          requests := none :: [page1, page2].map Page.cursor
          stopped := true }
    ∧ (get_code_patterns_for_tool ([page1, page2] ++ [page3]) none).requests.length
        = ([page1, page2] ++ [page3]).length :=
  claim_C3_pagination [page1, page2] page3 (by decide) (by decide)

theorem cursorParam_ne_empty (c : Option String) : cursorParam c ≠ some "" := by
  match c with
  | none => intro h; exact Option.noConfusion h
  | some s =>
    by_cases hs : s = ""
    · subst hs
      intro h
      simp [cursorParam, truthyCursor] at h
    · simp [cursorParam, truthyCursor, hs]

theorem fetch_stopped_iff (pages : List Page) :
    ∀ c : Option String,
      ((get_code_patterns_for_tool pages c).stopped = true
        ↔ ∃ p ∈ pages, truthyCursor p.cursor = false) := by
  induction pages with
  | nil =>
    intro c
    simp [get_code_patterns_for_tool]
  | cons q qs ih =>
    intro c
    rw [get_code_patterns_for_tool]
    by_cases hq : truthyCursor q.cursor = true
    · rw [if_pos hq]
      show (get_code_patterns_for_tool qs q.cursor).stopped = true ↔ _
      rw [ih q.cursor]
      constructor
      · rintro ⟨p, hp, hpf⟩
        exact ⟨p, List.mem_cons_of_mem q hp, hpf⟩
      · rintro ⟨p, hp, hpf⟩
        rcases List.mem_cons.mp hp with rfl | hp'
        · rw [hq] at hpf
          exact absurd hpf (by decide)
        · exact ⟨p, hp', hpf⟩
    · rw [if_neg hq]
      have hqf : truthyCursor q.cursor = false := by
        revert hq
        cases truthyCursor q.cursor <;> simp
      constructor
      · intro _
        exact ⟨q, List.mem_cons_self q qs, hqf⟩
      · intro _
        rfl

theorem fetch_requests_ne_empty (pages : List Page) :
    ∀ c : Option String, ∀ r ∈ (get_code_patterns_for_tool pages c).requests,
      r ≠ some "" := by
  induction pages with
  | nil =>
    intro c r hr
    simp [get_code_patterns_for_tool] at hr
  | cons q qs ih =>
    intro c r hr
    rw [get_code_patterns_for_tool] at hr
    by_cases hq : truthyCursor q.cursor = true
    · rw [if_pos hq] at hr
      rcases List.mem_cons.mp hr with h | h
      · exact h ▸ cursorParam_ne_empty c
      · exact ih q.cursor r h
    · rw [if_neg hq] at hr
      rcases List.mem_cons.mp hr with h | h
      · exact h ▸ cursorParam_ne_empty c
      · exact absurd h (List.not_mem_nil r)

/-- C10: run against any page stream, the loop reaches its `break` exactly
when some page's cursor is falsy (missing, null, or empty); a falsy cursor is
never sent as a query parameter, the loop stops immediately after the first
page carrying one, and an empty-string cursor state behaves identically to an
absent one. -/
theorem claim_C10_termination (pages : List Page) :
    ((get_code_patterns_for_tool pages none).stopped = true
      ↔ ∃ p ∈ pages, truthyCursor p.cursor = false)
    ∧ (∀ r ∈ (get_code_patterns_for_tool pages none).requests, r ≠ some "")
    ∧ (∀ (page : Page) (rest : List Page) (c : Option String),
        truthyCursor page.cursor = false →
          get_code_patterns_for_tool (page :: rest) c
            = { patterns := page.data, requests := [cursorParam c], stopped := true })
    ∧ (∀ l : List Page,
        get_code_patterns_for_tool l (some "") = get_code_patterns_for_tool l none) := by
  refine ⟨fetch_stopped_iff pages none, fetch_requests_ne_empty pages none, ?_, ?_⟩
  · intro page rest c hpf
    rw [get_code_patterns_for_tool, if_neg (by rw [hpf]; exact Bool.false_ne_true)]
  · intro l
    match l with
    | [] => rfl
    | page :: rest =>
      rw [get_code_patterns_for_tool, get_code_patterns_for_tool]
      have hcp : cursorParam (some "") = cursorParam none := by decide
      rw [hcp]

/-- Witness for C10 at concrete pages: the falsy-cursor page stops the loop,
`none` is among the issued cursor parameters, the loop is insensitive to an
empty-string cursor state, and the stop condition is met. -/
theorem claim_C10_termination_witness :
    (get_code_patterns_for_tool [page1, page3] none).stopped = true
    ∧ ((none : Option String) ≠ some "")
    ∧ (get_code_patterns_for_tool (page3 :: []) (some "c2")
        = { patterns := page3.data, requests := [cursorParam (some "c2")], stopped := true })
    ∧ (get_code_patterns_for_tool [page1] (some "")
        = get_code_patterns_for_tool [page1] none) :=
  ⟨(claim_C10_termination [page1, page3]).1.mpr ⟨page3, by decide, by decide⟩,
   (claim_C10_termination [page1, page3]).2.1 none (by decide),
   (claim_C10_termination [page1, page3]).2.2.1 page3 [] (some "c2") (by decide),
   (claim_C10_termination [page1, page3]).2.2.2 [page1]⟩

/-- Python truthiness of an optional string environment value
(`if not CODACY_API_TOKEN:`): falsy when unset or empty. -/
def pyTruthyOpt : Option String → Bool
  | none => false
  | some s => decide (s ≠ "")

/-- Outcome of one run of `main`, as observable at the process level:
either the function returns normally (after printing), or an exception
escapes it and the interpreter aborts with a traceback. -/
inductive RunOutcome
  | normal (message : String)
  | uncaught (message : String)
deriving DecidableEq

/-- Whether the run ended by `main` returning normally. -/
def RunOutcome.isNormal : RunOutcome → Bool
  | RunOutcome.normal _ => true
  | RunOutcome.uncaught _ => false

/-- `main`'s inputs, abstracted: the `CODACY_API_TOKEN` environment value and
the outcome of the `try:` block's body (which either completes or raises an
exception rendered as its message). -/
structure MainEnv where
  token : Option String
  body : Except String Unit

/-- Control-flow skeleton of `main` from `extractor.py`: the missing-token
`ValueError` is raised *before* the `try:` block, so it escapes `main`
uncaught; any exception raised inside the `try:` block is caught by the
generic handlers, its message printed, and `main` returns normally. -/
def runMain (env : MainEnv) : RunOutcome :=
  if pyTruthyOpt env.token = false then
    RunOutcome.uncaught "CODACY_API_TOKEN environment variable is not set"
  else
    match env.body with
    | Except.ok _ => RunOutcome.normal ""
    | Except.error e => RunOutcome.normal ("An error occurred: " ++ e)

/-- C5 counterexample: with the credential unset, the `ValueError` raised
before the `try:` block escapes `main` uncaught — the missing-credential
failure is *not* caught at the top level and the process does not exit
normally. -/
theorem claim_C5_counterexample :
    runMain { token := none, body := Except.ok () }
      = RunOutcome.uncaught "CODACY_API_TOKEN environment variable is not set"
    ∧ (runMain { token := none, body := Except.ok () }).isNormal = false := by
  constructor
  · decide
  · decide

/-- C5 amended: failures raised inside `main`'s `try:` block are caught,
printed, and the run ends normally; the missing-credential check, however,
runs before the `try:` block and its `ValueError` escapes uncaught. -/
theorem claim_C5_error_handling (env : MainEnv) :
    (pyTruthyOpt env.token = false →
      runMain env = RunOutcome.uncaught "CODACY_API_TOKEN environment variable is not set"
      ∧ (runMain env).isNormal = false)
    ∧ (∀ e, pyTruthyOpt env.token = true → env.body = Except.error e →
      runMain env = RunOutcome.normal ("An error occurred: " ++ e)
      ∧ (runMain env).isNormal = true)
    ∧ (pyTruthyOpt env.token = true → env.body = Except.ok () →
      (runMain env).isNormal = true) := by
  refine ⟨fun hf => ?_, fun e ht hb => ?_, fun ht hb => ?_⟩
  · have hm : runMain env = RunOutcome.uncaught
        "CODACY_API_TOKEN environment variable is not set" := by
      rw [runMain, if_pos hf]
    exact ⟨hm, by rw [hm]; rfl⟩
  · have hm : runMain env = RunOutcome.normal ("An error occurred: " ++ e) := by
      rw [runMain, if_neg (by rw [ht]; decide), hb]
    exact ⟨hm, by rw [hm]; rfl⟩
  · rw [runMain, if_neg (by rw [ht]; decide), hb]
    rfl

/-- Witness for C5 amended at concrete environments: an unset token escapes
uncaught, a caught body error prints and returns normally. -/
theorem claim_C5_error_handling_witness :
    (runMain { token := none, body := Except.ok () }
        = RunOutcome.uncaught "CODACY_API_TOKEN environment variable is not set"
      ∧ (runMain { token := none, body := Except.ok () }).isNormal = false)
    ∧ (runMain { token := some "t", body := Except.error "boom" }
        = RunOutcome.normal ("An error occurred: " ++ "boom")
      ∧ (runMain { token := some "t", body := Except.error "boom" }).isNormal = true) :=
  ⟨(claim_C5_error_handling { token := none, body := Except.ok () }).1 (by decide),
   (claim_C5_error_handling { token := some "t", body := Except.error "boom" }).2.1
      "boom" (by decide) rfl⟩
